import Mathlib

/-!
Verification development for the Handel aggregation core (`net.go`, package
`handel`).  The Go code is shallowly embedded: struct mutation becomes
explicit state passing, `panic` and Go runtime faults become `Except.error`,
channels become lists recording the values ever sent on them, and machine
integers become `Nat`/`Int` (the quantities involved — level indices, counts,
cardinalities — never approach their machine bounds in the source).
Identities are represented by their integer IDs.
-/

/-- Panics and errors that the embedded Go code can produce.  Each
constructor stands for one concrete `panic`/`errors.New` site (or a Go
runtime fault such as an out-of-range slice index). -/
inductive GoError where
  /-- Go runtime panic: slice index out of range. -/
  | indexOutOfRange
  /-- `errors.New("no non-empty level found")` in `findNextLevel`. -/
  | noNonEmptyLevel
  /-- `errors.New("packet's origin out of range")` in `parsePacket`. -/
  | originOutOfRange
  /-- `errors.New("packet's level out of range, ...")` in `parsePacket`. -/
  | levelOutOfRange
  /-- `ms.Unmarshal(...)` returned an error in `parsePacket`. -/
  | unmarshalFailed
  /-- `panic("Too many signatures for this level: ...")` in `updateBestSig`. -/
  | tooManySigs (lvl nodes sigs : ℕ)
  /-- `panic("THIS SHOULD NOT HAPPEN AT ALL")` in `sendUpdate`. -/
  | combinedNil
  /-- `panic("something's wrong with the store")` in `checkCompletedLevel`. -/
  | storeWrong
  /-- `panic("skip sending best -> reached maximum level ...")` in `sendBestUpTo`. -/
  | maxLevelReached
  /-- Go runtime panic: `close` of an already-closed channel, in `Stop`. -/
  | closeClosedChannel
  /-- Nil dereference of `store.FullSignature()` in `checkFinalSignature`. -/
  | nilFullSignature
deriving DecidableEq

instance {ε α : Type} [DecidableEq ε] [DecidableEq α] :
    DecidableEq (Except ε α) := fun a b =>
  match a, b with
  | Except.error e1, Except.error e2 =>
    if h : e1 = e2 then Decidable.isTrue (by rw [h])
    else Decidable.isFalse (fun hc => h (Except.error.inj hc))
  | Except.ok x, Except.ok y =>
    if h : x = y then Decidable.isTrue (by rw [h])
    else Decidable.isFalse (fun hc => h (Except.ok.inj hc))
  | Except.error _, Except.ok _ =>
    Decidable.isFalse (fun hc => Except.noConfusion hc)
  | Except.ok _, Except.error _ =>
    Decidable.isFalse (fun hc => Except.noConfusion hc)

/-- A multi-signature.  Modelled from the spec: a pair (contributor BitSet,
aggregated signature); the scheme-specific aggregated signature is out of
scope, so only the bitset of contributor indices is carried.  All code under
`src/` inspects a multi-signature only through its cardinality. -/
structure MultiSignature where
  bits : Finset ℕ
deriving DecidableEq

/-- `MultiSignature.Cardinality` / `BitSet.Cardinality`: number of
contributors. -/
def MultiSignature.Cardinality (ms : MultiSignature) : ℕ :=
  ms.bits.card

/-- The per-level state `Level` from the source, field for field.
Identities are represented by their integer IDs. -/
structure Level where
  id : ℕ
  nodes : List ℕ
  started : Bool
  completed : Bool
  finished : Bool
  pos : ℕ
  sent : ℕ
  currentBestSize : ℕ
deriving DecidableEq

/-- The `for i:=0; i<size; i++` loop body of `Level.PickNextAt`: read
`nodes[pos]`, advance `pos`, wrapping to `0` when it reaches `len(nodes)`.
The Go code would panic on an out-of-range `pos`; we use `getD` (the states
the claims quantify over have `pos < len(nodes)`, under which the default is
never read). -/
def pickNextAtLoop (nodes : List ℕ) : ℕ → ℕ → List ℕ × ℕ
  | 0, pos => ([], pos)
  | size + 1, pos =>
    let x := nodes.getD pos 0
    let pos2 := if nodes.length ≤ pos + 1 then 0 else pos + 1
    let r := pickNextAtLoop nodes size pos2
    (x :: r.1, r.2)

/-- `Level.PickNextAt(count)` from the source: return the next
`min(count, len(nodes))` identities from the rotating cursor, bump `sent`,
and mark the level `finished` once `sent >= len(nodes)`.  The mutation of
the receiver is returned as the second component. -/
def Level.PickNextAt (c : Level) (count : ℕ) : (List ℕ × Bool) × Level :=
  let size := min count c.nodes.length
  let r := pickNextAtLoop c.nodes size c.pos
  let sent2 := c.sent + size
  let fin := if c.nodes.length ≤ sent2 then true else c.finished
  ((r.1, true), { c with pos := r.2, sent := sent2, finished := fin })

/-- `Level.updateBestSig(sig)` from the source: panic when the signature has
more contributors than the level has nodes; ignore non-improving signatures;
otherwise record the new best size, clear `finished`, reset `sent`, and
report whether the level is now fully complete. -/
def Level.updateBestSig (l : Level) (sig : MultiSignature) :
    Except GoError (Bool × Level) :=
  if l.nodes.length < sig.Cardinality then
    Except.error (GoError.tooManySigs l.id l.nodes.length sig.Cardinality)
  else if sig.Cardinality ≤ l.currentBestSize then
    Except.ok (false, l)
  else
    let l2 := { l with currentBestSize := sig.Cardinality,
                       finished := false, sent := 0 }
    Except.ok (decide (l2.currentBestSize = l.nodes.length), l2)

/-- Modelled from the spec: the repository's `log2` helper (not under
`src/`); `L = ⌈log2 N⌉`, i.e. the least `k` with `n ≤ 2 ^ k` (taken over
`k ≤ n`, which always contains the least such `k` since `n ≤ 2 ^ n`). -/
def log2 (n : ℕ) : ℕ :=
  ((List.range (n + 1)).filter fun k => n ≤ 2 ^ k).headD 0

/-- Disjoint merge of a list of multi-signatures: union of the bitsets
(the signature aggregation itself is out of scope). -/
def mergeAll (l : List MultiSignature) : MultiSignature :=
  ⟨(l.map MultiSignature.bits).foldl (· ∪ ·) ∅⟩

/-- Modelled from the spec: `store.Combined(k)` of the signature store (not
under `src/`) returns the merge of the best aggregates at levels `0..k`, or
null if any component level is missing. -/
def combined (store : List (Option MultiSignature)) (k : ℕ) :
    Option MultiSignature :=
  ((List.range (k + 1)).mapM fun i => store.getD i none).map mergeAll

/-- Modelled from the spec: `store.Best(level)` of the signature store (not
under `src/`) returns the best aggregate stored at `level`, if any. -/
def storeBest (store : List (Option MultiSignature)) (level : ℕ) :
    Option MultiSignature :=
  store.getD level none

/-- A wire packet after transport.  `multiSig` is the result of running
`MultiSignature.Unmarshal` on the opaque payload bytes; modelled from the
spec: serialization itself is out of scope, so a packet carries `some ms`
when its bytes unmarshal to `ms` and `none` when unmarshalling fails.
`origin` is a signed 32-bit integer in Go, hence `Int`; `level` is a byte,
hence a natural number (within `[0, 255]` for every real packet). -/
structure Packet where
  origin : Int
  level : ℕ
  multiSig : Option MultiSignature
deriving DecidableEq

/-- The `sigPair` triples travelling through the verification pipeline. -/
structure sigPair where
  origin : Int
  level : ℕ
  ms : MultiSignature
deriving DecidableEq

/-- The `Handel` aggregator state.  Interfaces consumed from outside the
core are flattened to the data the core reads: the registry to its size
`n`, the config to `candidateCount`, the channels and the network to the
lists of values ever sent on them (`out`, `incoming`, `sends`). -/
structure Handel where
  /-- `h.reg.Size()`. -/
  n : ℕ
  /-- `h.c.CandidateCount`. -/
  candidateCount : ℕ
  threshold : ℕ
  currLevel : ℕ
  best : Option MultiSignature
  done : Bool
  /-- Whether `close(h.out)` has happened. -/
  outClosed : Bool
  tickerStopped : Bool
  procStopped : Bool
  /-- Modelled from the spec: the replace store, as the best aggregate per
  level index `0..L`. -/
  store : List (Option MultiSignature)
  levels : List Level
  /-- History of the values sent on the `out` channel. -/
  out : List MultiSignature
  /-- History of the values pushed onto `proc.Incoming()`. -/
  incoming : List sigPair
  /-- History of network sends: `(level, signature, recipient ids)`. -/
  sends : List (ℕ × MultiSignature × List ℕ)
deriving DecidableEq

/-- `store.FullSignature()`: `Combined(L)`, with `L + 1` stored levels. -/
def Handel.FullSignature (h : Handel) : Option MultiSignature :=
  combined h.store (h.store.length - 1)

/-- Go slice indexing, with the runtime out-of-range panic made explicit. -/
def goIndex {α : Type} (xs : List α) (i : ℕ) : Except GoError α :=
  match xs[i]? with
  | some x => Except.ok x
  | none => Except.error GoError.indexOutOfRange

/-- `Handel.sendTo` from the source: build a packet carrying the marshalled
signature and ship it to `ids` (recorded on the `sends` history;
marshalling of our abstract signatures cannot fail). -/
def Handel.sendTo (h : Handel) (lvl : ℕ) (ms : MultiSignature)
    (ids : List ℕ) : Handel :=
  { h with sends := h.sends ++ [(lvl, ms, ids)] }

/-- `Handel.sendUpdate(l, count)` from the source.  Note that the Go method
receives the `Level` BY VALUE, so the `PickNextAt` mutation acts on a copy
that is discarded; `h.levels` is untouched.  `byte(l.id) - 1` is modelled
as natural subtraction (`NewLevel` rejects `id <= 0`, so `l.id >= 1` in
every constructed level). -/
def Handel.sendUpdate (h : Handel) (l : Level) (count : ℕ) :
    Except GoError Handel :=
  if !l.started || l.finished then Except.ok h
  else
    match combined h.store (l.id - 1) with
    | none => Except.error GoError.combinedNil
    | some sp =>
      let r := l.PickNextAt count
      Except.ok (h.sendTo l.id sp r.1.1)

/-- The `for _, lvl := range h.levels` loop of `periodicUpdate`; a panic in
`sendUpdate` aborts the whole loop. -/
def periodicUpdateLoop (h : Handel) : List Level → Except GoError Handel
  | [] => Except.ok h
  | l :: rest =>
    match h.sendUpdate l 1 with
    | Except.error e => Except.error e
    | Except.ok h1 => periodicUpdateLoop h1 rest

/-- `Handel.periodicUpdate` from the source: one ticker tick, sending one
update per level. -/
def Handel.periodicUpdate (h : Handel) : Except GoError Handel :=
  periodicUpdateLoop h h.levels

/-- `Handel.parsePacket(p)` from the source: reject an origin at or above
the registry size (note: the Go code compares signed integers and has no
lower-bound check, so negative origins pass), reject a level outside
`[1, log2 N]`, then unmarshal the payload. -/
def Handel.parsePacket (h : Handel) (p : Packet) :
    Except GoError MultiSignature :=
  if (h.n : Int) ≤ p.origin then Except.error GoError.originOutOfRange
  else if p.level < 1 ∨ log2 h.n < p.level then
    Except.error GoError.levelOutOfRange
  else
    match p.multiSig with
    | none => Except.error GoError.unmarshalFailed
    | some ms => Except.ok ms

/-- `Handel.NewPacket(p)` from the source: drop everything once `done`;
drop (with a log) packets that fail to parse; push the parsed triple onto
the verification queue otherwise. -/
def Handel.NewPacket (h : Handel) (p : Packet) : Handel :=
  if h.done then h
  else
    match h.parsePacket p with
    | Except.error _ => h
    | Except.ok ms =>
      { h with incoming := h.incoming ++ [⟨p.origin, p.level, ms⟩] }

/-- `Handel.Stop` from the source: stop the ticker and the verifier, mark
`done`, and `close(h.out)` — which is a Go runtime panic if the channel is
already closed. -/
def Handel.Stop (h : Handel) : Except GoError Handel :=
  let h1 := { h with tickerStopped := true, procStopped := true,
                     done := true }
  if h1.outClosed then Except.error GoError.closeClosedChannel
  else Except.ok { h1 with outClosed := true }

/-- One iteration of the `findNextLevel` loop body at index `l`: return `l`
if `levels[l-1]` is non-empty, skip to `l + 1` if it is empty, and fault
with the Go runtime index-out-of-range panic once `l - 1` runs past the
array.  `fuel` counts the iterations remaining before that fault — the
wrapper passes `levels.length + 1 - l`, so `fuel = 0` exactly when
`l - 1 ≥ levels.length`, making the `fuel = 0` branch the same runtime
fault. -/
def findNextLevelGo (levels : List Level) : ℕ → ℕ → Except GoError ℕ
  | 0, _ => Except.error GoError.indexOutOfRange
  | fuel + 1, l =>
    if h : l - 1 < levels.length then
      if (levels[l - 1].nodes).length = 0 then
        findNextLevelGo levels fuel (l + 1)
      else Except.ok l
    else Except.error GoError.indexOutOfRange

/-- The loop of `findNextLevel`, as written in the source:
`for l := lvl + 1; lvl <= len(h.levels); l++`.  The guard tests the loop
PARAMETER `lvl`, not the loop variable `l`, so once entered the loop can
only leave through the non-empty-level return or through the out-of-range
panic at `h.levels[l-1]`.  The constant guard is evaluated in the wrapper
`Handel.findNextLevel`. -/
def findNextLevelLoop (levels : List Level) (l : ℕ) : Except GoError ℕ :=
  findNextLevelGo levels (levels.length + 1 - l) l

/-- `Handel.findNextLevel(lvl)` from the source, including its erroneous
loop guard: if `lvl > len(levels)` the loop body never runs and the
function returns the `"no non-empty level found"` error; otherwise the
guard is constantly true and the loop runs unbounded. -/
def Handel.findNextLevel (h : Handel) (lvl : ℕ) : Except GoError ℕ :=
  if lvl ≤ h.levels.length then findNextLevelLoop h.levels (lvl + 1)
  else Except.error GoError.noNonEmptyLevel

/-- `Handel.sendBestUpTo(lvl)` from the source: panic outside `[0, L)`
(the `lvl < 0` half of the Go guard is vacuous over `ℕ`), find the next
non-empty level, and send it `Combined(lvl)` — note the level is read out
of `h.levels` and passed to `sendUpdate` by value. -/
def Handel.sendBestUpTo (h : Handel) (lvl : ℕ) : Except GoError Handel :=
  if h.levels.length ≤ lvl then Except.error GoError.maxLevelReached
  else
    match h.findNextLevel lvl with
    | Except.error e => Except.error e
    | Except.ok levelToSend =>
      match goIndex h.levels (levelToSend - 1) with
      | Except.error e => Except.error e
      | Except.ok l => h.sendUpdate l h.candidateCount

/-- `Handel.startNextLevel` from the source: a logged no-op once
`currLevel` reaches the number of levels; otherwise send the best up from
`currLevel` and increment it. -/
def Handel.startNextLevel (h : Handel) : Except GoError Handel :=
  if h.levels.length ≤ h.currLevel then Except.ok h
  else
    match h.sendBestUpTo h.currLevel with
    | Except.error e => Except.error e
    | Except.ok g => Except.ok { g with currLevel := g.currLevel + 1 }

/-- The `newBest` closure of `checkFinalSignature`: silently do nothing
once `done` (the output channel may be closed); otherwise record and emit
the new best final signature. -/
def Handel.newBest (h : Handel) (ms : MultiSignature) : Handel :=
  if h.done then h
  else { h with best := some ms, out := h.out ++ [ms] }

/-- `Handel.checkFinalSignature` from the source (the `sigPair` argument is
unused there as well): read the full signature, ignore it below the
threshold, and emit it when it beats the previous best (or when there is
none).  A nil full signature would be dereferenced — made an explicit
error here. -/
def Handel.checkFinalSignature (h : Handel) (_s : sigPair) :
    Except GoError Handel :=
  match h.FullSignature with
  | none => Except.error GoError.nilFullSignature
  | some sig =>
    if sig.Cardinality < h.threshold then Except.ok h
    else
      match h.best with
      | none => Except.ok (h.newBest sig)
      | some local0 =>
        if local0.Cardinality < sig.Cardinality then
          Except.ok (h.newBest sig)
        else Except.ok h

/-- `Handel.checkCompletedLevel(s)` from the source.  `lvl` is a BY-VALUE
copy of `h.levels[s.level-1]`, so the `updateBestSig` mutation is discarded
and only its boolean result steers control flow.  `s.level - 1` is natural
subtraction (verified pairs have `level >= 1` by `parsePacket`). -/
def Handel.checkCompletedLevel (h : Handel) (s : sigPair) :
    Except GoError Handel :=
  match goIndex h.levels (s.level - 1) with
  | Except.error e => Except.error e
  | Except.ok lvl =>
    if lvl.completed then Except.ok h
    else
      match storeBest h.store s.level with
      | none => Except.error GoError.storeWrong
      | some ms =>
        match lvl.updateBestSig ms with
        | Except.error e => Except.error e
        | Except.ok r =>
          if !r.1 then Except.ok h
          else if s.level = h.currLevel then h.startNextLevel
          else if lvl.id < h.levels.length - 1 then h.sendBestUpTo lvl.id
          else Except.ok h

/-- One aggregator event: `none` is one ticker tick (`periodicUpdate`),
`some s` is one verified-signature delivery handed to
`checkCompletedLevel`. -/
def Handel.applyEvent (h : Handel) : Option sigPair → Except GoError Handel
  | none => h.periodicUpdate
  | some s => h.checkCompletedLevel s

/-- A finite schedule of aggregator events, applied in order; a panic
aborts the run. -/
def Handel.applyEvents (h : Handel) :
    List (Option sigPair) → Except GoError Handel
  | [] => Except.ok h
  | e :: rest =>
    match h.applyEvent e with
    | Except.error err => Except.error err
    | Except.ok h1 => h1.applyEvents rest

/-- The cardinality of the current best final signature, `0` when none. -/
def bestCard (h : Handel) : ℕ :=
  (h.best.map MultiSignature.Cardinality).getD 0

/-- The emission invariant maintained by `checkFinalSignature`: the output
history is strictly increasing in cardinality, every emitted value meets
the threshold and is bounded by the recorded best, and the best is set as
soon as anything has been emitted. -/
def finalInv (h : Handel) : Prop :=
  h.out.Pairwise (fun a b => a.Cardinality < b.Cardinality) ∧
  (∀ m ∈ h.out, h.threshold ≤ m.Cardinality ∧ m.Cardinality ≤ bestCard h) ∧
  (h.best = none → h.out = [])

instance (h : Handel) : Decidable (finalInv h) := by
  unfold finalInv
  infer_instance

/-! Concrete states used to evaluate the theorems on explicit inputs. -/

/-- The single-contributor multi-signature of node `0` (its own
contribution, stored at level `0` on construction). -/
def msOW : MultiSignature :=
  ⟨{0}⟩

/-- A two-contributor multi-signature. -/
def ms2W : MultiSignature :=
  ⟨{0, 1}⟩

/-- The merge of the own contribution alone, as `combined` produces it. -/
def msFull : MultiSignature :=
  mergeAll [msOW]

/-- A small freshly-constructed aggregator state: two registered nodes,
threshold `1`, only the own contribution stored, no levels attached yet. -/
def hBase : Handel :=
  { n := 2, candidateCount := 1, threshold := 1, currLevel := 0,
    best := none, done := false, outClosed := false, tickerStopped := false,
    procStopped := false, store := [some msOW], levels := [], out := [],
    incoming := [], sends := [] }

/-- `hBase` after `checkFinalSignature` has emitted the full signature. -/
def hC1e : Handel :=
  { hBase with best := some msFull, out := [msFull] }

/-- A verified pair (its content is ignored by `checkFinalSignature`). -/
def sW : sigPair :=
  ⟨0, 1, msOW⟩

/-- A packet with a NEGATIVE origin, a valid level, and a payload that
unmarshals. -/
def pktNeg : Packet :=
  ⟨-1, 1, some msOW⟩

/-- A packet with a valid origin, a valid level, and a payload that
unmarshals. -/
def pktOk : Packet :=
  ⟨1, 1, some msOW⟩

/-- A level whose candidate list is empty. -/
def lvlE : Level :=
  { id := 1, nodes := [], started := true, completed := false,
    finished := false, pos := 0, sent := 0, currentBestSize := 0 }

/-- An aggregator whose only level is empty: every level above `0` is
empty, the situation in which the claim expects the `NoHigherLevel`
error. -/
def hC3 : Handel :=
  { hBase with levels := [lvlE] }

/-- A level with two candidates and no recorded best yet. -/
def l4W : Level :=
  { id := 1, nodes := [1, 2], started := true, completed := false,
    finished := false, pos := 0, sent := 1, currentBestSize := 0 }

/-- `hBase` after one successful `Stop`. -/
def hC5s : Handel :=
  { hBase with done := true, tickerStopped := true, procStopped := true,
               outClosed := true }

/-- A level with three candidates and the cursor at position `1`. -/
def l6W : Level :=
  { id := 1, nodes := [5, 6, 7], started := true, completed := false,
    finished := false, pos := 1, sent := 0, currentBestSize := 0 }

/-- A started, unfinished first level with a single candidate. -/
def lv7 : Level :=
  { id := 1, nodes := [1], started := true, completed := false,
    finished := false, pos := 0, sent := 0, currentBestSize := 0 }

/-- An aggregator at `currLevel = 0` with one non-empty level and the own
contribution stored, ready to start the next level. -/
def h7X : Handel :=
  { hBase with levels := [lv7], store := [some msOW, none] }

/-- `h7X` after its best has been dispatched to level `1` (what
`sendBestUpTo 0` produces). -/
def g7X : Handel :=
  { h7X with sends := [(1, msFull, [1])] }

/-- A finished first level (all candidates contacted). -/
def lvl1F : Level :=
  { id := 1, nodes := [1], started := true, completed := false,
    finished := true, pos := 0, sent := 1, currentBestSize := 0 }

/-- A started, unfinished second level. -/
def lvl2C8 : Level :=
  { id := 2, nodes := [2], started := true, completed := false,
    finished := false, pos := 0, sent := 0, currentBestSize := 0 }

/-- An aggregator where level `2` is started and unfinished but no level-1
aggregate has been stored yet, so `Combined(1)` is null. -/
def hC8 : Handel :=
  { hBase with levels := [lvl1F, lvl2C8], store := [some msOW, none, none] }

/-- A completed level, for exercising the `checkCompletedLevel` fast
exit. -/
def lvlDone : Level :=
  { id := 1, nodes := [1], started := true, completed := true,
    finished := true, pos := 0, sent := 1, currentBestSize := 1 }

theorem pickNextAtLoop_eq (nodes : List ℕ) :
    ∀ (size pos : ℕ), pos < nodes.length →
      pickNextAtLoop nodes size pos =
        ((List.range size).map
           (fun i => nodes.getD ((pos + i) % nodes.length) 0),
         (pos + size) % nodes.length) := by
  intro size
  induction size with
  | zero =>
    intro pos hp
    simp [pickNextAtLoop, Nat.mod_eq_of_lt hp]
  | succ k ih =>
    intro pos hp
    have hmod : (if nodes.length ≤ pos + 1 then 0 else pos + 1) =
        (pos + 1) % nodes.length := by
      split
      · rw [show pos + 1 = nodes.length by omega, Nat.mod_self]
      · rw [Nat.mod_eq_of_lt (by omega)]
    have hp2 : (pos + 1) % nodes.length < nodes.length :=
      Nat.mod_lt _ (by omega)
    simp only [pickNextAtLoop]
    rw [hmod, ih ((pos + 1) % nodes.length) hp2]
    refine Prod.ext ?_ ?_
    · show nodes.getD pos 0 ::
        (List.range k).map
          (fun i => nodes.getD (((pos + 1) % nodes.length + i) %
            nodes.length) 0) = _
      rw [List.range_succ_eq_map, List.map_cons, List.map_map]
      congr 1
      · rw [Nat.add_zero, Nat.mod_eq_of_lt hp]
      · congr 1
        funext i
        show nodes.getD (((pos + 1) % nodes.length + i) % nodes.length) 0 =
          nodes.getD ((pos + (i + 1)) % nodes.length) 0
        rw [Nat.mod_add_mod]
        congr 2
        omega
    · show ((pos + 1) % nodes.length + k) % nodes.length = _
      rw [Nat.mod_add_mod]
      congr 1
      omega

/-- C6: `PickNextAt(count)` on a level with non-empty candidates and an
in-range cursor returns the next `min(count, |nodes|)` peers from the
round-robin cursor (`nodes[(pos + i) % |nodes|]` for `i < size`, hence
consecutive `PickNextAt(1)` calls visit the peers in round-robin order),
advances `pos` by `size` modulo `|nodes|`, increments `sent` by the number
of peers returned, and sets `finished` to true exactly when `sent ≥ |nodes|`
holds afterwards (an already-true `finished` is left untouched). -/
theorem pickNextAt_spec (l : Level) (count : ℕ)
    (_hn : l.nodes ≠ []) (hp : l.pos < l.nodes.length) :
    l.PickNextAt count =
      (((List.range (min count l.nodes.length)).map
          (fun i => l.nodes.getD ((l.pos + i) % l.nodes.length) 0), true),
       { l with
           pos := (l.pos + min count l.nodes.length) % l.nodes.length,
           sent := l.sent + min count l.nodes.length,
           finished := l.finished ||
             decide (l.nodes.length ≤
               l.sent + min count l.nodes.length) }) := by
  simp only [Level.PickNextAt]
  rw [pickNextAtLoop_eq l.nodes (min count l.nodes.length) l.pos hp]
  by_cases hle : l.nodes.length ≤ l.sent + min count l.nodes.length
  · simp [hle]
  · simp [hle]

/-- Witness for C6 at a concrete level: three candidates, cursor at `1`,
two requested. -/
theorem pickNextAt_spec_witness :
    l6W.nodes ≠ [] ∧ l6W.pos < l6W.nodes.length ∧
    l6W.PickNextAt 2 =
      (((List.range (min 2 l6W.nodes.length)).map
          (fun i => l6W.nodes.getD ((l6W.pos + i) % l6W.nodes.length) 0),
        true),
       { l6W with
           pos := (l6W.pos + min 2 l6W.nodes.length) % l6W.nodes.length,
           sent := l6W.sent + min 2 l6W.nodes.length,
           finished := l6W.finished ||
             decide (l6W.nodes.length ≤
               l6W.sent + min 2 l6W.nodes.length) }) :=
  ⟨by decide, by decide, pickNextAt_spec l6W 2 (by decide) (by decide)⟩

/-- C4: `updateBestSig(sig)` with `sig.cardinality ≤ |nodes|` returns
`false` and changes nothing when the cardinality does not strictly beat
`currentBestSize`; on strict improvement it records the new best size,
resets `sent`, clears `finished`, and returns true iff the level is now
fully complete; with `sig.cardinality > |nodes|` it panics. -/
theorem updateBestSig_spec (l : Level) (sig : MultiSignature) :
    (sig.Cardinality ≤ l.nodes.length →
      ((sig.Cardinality ≤ l.currentBestSize →
          l.updateBestSig sig = Except.ok (false, l)) ∧
       (l.currentBestSize < sig.Cardinality →
          l.updateBestSig sig =
            Except.ok (decide (sig.Cardinality = l.nodes.length),
              { l with currentBestSize := sig.Cardinality,
                       finished := false, sent := 0 })))) ∧
    (l.nodes.length < sig.Cardinality →
      l.updateBestSig sig =
        Except.error
          (GoError.tooManySigs l.id l.nodes.length sig.Cardinality)) := by
  refine ⟨fun hle => ⟨fun h1 => ?_, fun h2 => ?_⟩, fun hgt => ?_⟩
  · unfold Level.updateBestSig
    rw [if_neg (by omega), if_pos h1]
  · unfold Level.updateBestSig
    rw [if_neg (by omega), if_neg (by omega)]
  · unfold Level.updateBestSig
    rw [if_pos hgt]

/-- Witness for C4: a strict improvement that exactly completes the
level. -/
theorem updateBestSig_spec_witness :
    l4W.updateBestSig ms2W =
      Except.ok (decide (ms2W.Cardinality = l4W.nodes.length),
        { l4W with currentBestSize := ms2W.Cardinality,
                   finished := false, sent := 0 }) :=
  ((updateBestSig_spec l4W ms2W).1 (by decide)).2 (by decide)

/-- C10: on a level with no candidates, `PickNextAt(count)` returns an
empty peer list with `ok = true` and marks the level finished (the
`sent ≥ |nodes|` test is vacuously true at `|nodes| = 0`); a finished level
is then skipped by `sendUpdate`, so it is excluded from dissemination. -/
theorem pickNextAt_empty (l : Level) (count : ℕ) (hn : l.nodes = []) :
    l.PickNextAt count = (([], true), { l with finished := true }) ∧
    (∀ (h : Handel) (c : ℕ),
      h.sendUpdate { l with finished := true } c = Except.ok h) := by
  constructor
  · simp [Level.PickNextAt, hn, pickNextAtLoop]
  · intro h c
    simp [Handel.sendUpdate]

/-- Witness for C10 at a concrete empty level. -/
theorem pickNextAt_empty_witness :
    lvlE.PickNextAt 5 = (([], true), { lvlE with finished := true }) ∧
    hBase.sendUpdate { lvlE with finished := true } 1 = Except.ok hBase :=
  ⟨(pickNextAt_empty lvlE 5 (by decide)).1,
   (pickNextAt_empty lvlE 5 (by decide)).2 hBase 1⟩

theorem sendUpdate_ok_frame {h : Handel} {l : Level} {c : ℕ} {h' : Handel}
    (he : h.sendUpdate l c = Except.ok h') :
    h'.levels = h.levels ∧ h'.currLevel = h.currLevel ∧ h'.out = h.out ∧
    h'.done = h.done ∧ h'.store = h.store ∧ h'.threshold = h.threshold ∧
    h'.best = h.best := by
  unfold Handel.sendUpdate at he
  split at he
  · cases he
    exact ⟨rfl, rfl, rfl, rfl, rfl, rfl, rfl⟩
  · split at he
    · exact Except.noConfusion he
    · cases he
      exact ⟨rfl, rfl, rfl, rfl, rfl, rfl, rfl⟩

theorem sendBestUpTo_ok_frame {h : Handel} {lvl : ℕ} {h' : Handel}
    (he : h.sendBestUpTo lvl = Except.ok h') :
    h'.levels = h.levels ∧ h'.currLevel = h.currLevel ∧ h'.out = h.out ∧
    h'.done = h.done ∧ h'.store = h.store ∧ h'.threshold = h.threshold ∧
    h'.best = h.best := by
  unfold Handel.sendBestUpTo at he
  split at he
  · exact Except.noConfusion he
  · split at he
    · exact Except.noConfusion he
    · split at he
      · exact Except.noConfusion he
      · exact sendUpdate_ok_frame he

theorem startNextLevel_ok_levels {h h' : Handel}
    (he : h.startNextLevel = Except.ok h') : h'.levels = h.levels := by
  unfold Handel.startNextLevel at he
  split at he
  · cases he
    rfl
  · split at he
    · exact Except.noConfusion he
    · rename_i g hg
      cases he
      exact (sendBestUpTo_ok_frame hg).1

theorem checkCompletedLevel_ok_levels {h : Handel} {s : sigPair}
    {h' : Handel} (he : h.checkCompletedLevel s = Except.ok h') :
    h'.levels = h.levels := by
  unfold Handel.checkCompletedLevel at he
  split at he
  · exact Except.noConfusion he
  · split at he
    · cases he
      rfl
    · split at he
      · exact Except.noConfusion he
      · split at he
        · exact Except.noConfusion he
        · split at he
          · cases he
            rfl
          · split at he
            · exact startNextLevel_ok_levels he
            · split at he
              · exact (sendBestUpTo_ok_frame he).1
              · cases he
                rfl

theorem periodicUpdateLoop_ok_levels :
    ∀ (ls : List Level) (h h' : Handel),
      periodicUpdateLoop h ls = Except.ok h' → h'.levels = h.levels := by
  intro ls
  induction ls with
  | nil =>
    intro h h' he
    unfold periodicUpdateLoop at he
    cases he
    rfl
  | cons l rest ih =>
    intro h h' he
    unfold periodicUpdateLoop at he
    split at he
    · exact Except.noConfusion he
    · rename_i h1 heq
      exact (ih h1 h' he).trans (sendUpdate_ok_frame heq).1

theorem periodicUpdate_ok_levels {h h' : Handel}
    (he : h.periodicUpdate = Except.ok h') : h'.levels = h.levels :=
  periodicUpdateLoop_ok_levels h.levels h h' he

/-- C9: neither ticks (`periodicUpdate`) nor verified-signature deliveries
(`checkCompletedLevel`) ever mutate the `Level` values stored in
`h.levels` — both read the levels BY VALUE, so over any finite schedule of
such events the whole levels array (hence every `pos`, `sent`, `finished`,
`completed`, `currentBestSize` field) is unchanged: the round-robin cursor
never advances across ticks and `completed` is never set. -/
theorem levels_frame :
    ∀ (evs : List (Option sigPair)) (h h' : Handel),
      h.applyEvents evs = Except.ok h' → h'.levels = h.levels := by
  intro evs
  induction evs with
  | nil =>
    intro h h' he
    unfold Handel.applyEvents at he
    cases he
    rfl
  | cons e rest ih =>
    intro h h' he
    unfold Handel.applyEvents at he
    split at he
    · exact Except.noConfusion he
    · rename_i h1 heq
      have step : h1.levels = h.levels := by
        cases e with
        | none => exact periodicUpdate_ok_levels heq
        | some s => exact checkCompletedLevel_ok_levels heq
      exact (ih h1 h' he).trans step

/-- Witness for C9: one tick on a state that actually dispatches a packet
(the send is recorded, the levels array is untouched). -/
theorem levels_frame_witness :
    h7X.applyEvents [none] = Except.ok g7X ∧ g7X.levels = h7X.levels :=
  ⟨by decide, levels_frame [none] h7X g7X (by decide)⟩

/-- C7: `startNextLevel` is a no-op once `currLevel ≥ L`; below `L` it
forwards the result of `sendBestUpTo(currLevel)` (propagating its panic)
and, on success, increments `currLevel` by exactly one, leaving the levels
array unchanged. -/
theorem startNextLevel_spec (h : Handel) :
    (h.levels.length ≤ h.currLevel → h.startNextLevel = Except.ok h) ∧
    (h.currLevel < h.levels.length →
      (∀ e, h.sendBestUpTo h.currLevel = Except.error e →
        h.startNextLevel = Except.error e) ∧
      (∀ g, h.sendBestUpTo h.currLevel = Except.ok g →
        h.startNextLevel =
          Except.ok { g with currLevel := h.currLevel + 1 } ∧
        g.currLevel = h.currLevel ∧ g.levels = h.levels)) := by
  constructor
  · intro hge
    unfold Handel.startNextLevel
    rw [if_pos hge]
  · intro hlt
    constructor
    · intro e hee
      unfold Handel.startNextLevel
      rw [if_neg (by omega), hee]
    · intro g hg
      have frame := sendBestUpTo_ok_frame hg
      refine ⟨?_, frame.2.1, frame.1⟩
      unfold Handel.startNextLevel
      rw [if_neg (by omega), hg]
      show Except.ok { g with currLevel := g.currLevel + 1 } =
        Except.ok { g with currLevel := h.currLevel + 1 }
      rw [frame.2.1]

/-- Witness for C7: the no-op branch past the last level, and a concrete
send-and-increment step. -/
theorem startNextLevel_spec_witness :
    hBase.startNextLevel = Except.ok hBase ∧
    (h7X.startNextLevel =
       Except.ok { g7X with currLevel := h7X.currLevel + 1 } ∧
     g7X.currLevel = h7X.currLevel ∧ g7X.levels = h7X.levels) :=
  ⟨(startNextLevel_spec hBase).1 (by decide),
   ((startNextLevel_spec h7X).2 (by decide)).2 g7X (by decide)⟩

/-- Amended C8: `sendUpdate` skips levels that are not started or already
finished; for a started, unfinished level it dispatches `Combined(id - 1)`
to the next `count` candidates when that aggregate exists, and PANICS
(`"THIS SHOULD NOT HAPPEN AT ALL"`) — rather than treating null as "not
ready" — when `Combined(id - 1)` is null. -/
theorem sendUpdate_spec (h : Handel) (l : Level) (c : ℕ) :
    ((l.started = false ∨ l.finished = true) →
      h.sendUpdate l c = Except.ok h) ∧
    (l.started = true → l.finished = false →
      combined h.store (l.id - 1) = none →
      h.sendUpdate l c = Except.error GoError.combinedNil) ∧
    (∀ sp, l.started = true → l.finished = false →
      combined h.store (l.id - 1) = some sp →
      h.sendUpdate l c =
        Except.ok
          { h with sends :=
              h.sends ++ [(l.id, sp, (l.PickNextAt c).1.1)] }) := by
  refine ⟨fun hsf => ?_, fun hs hf hc => ?_, fun sp hs hf hc => ?_⟩
  · unfold Handel.sendUpdate
    have hcond : (!l.started || l.finished) = true := by
      rcases hsf with h1 | h1 <;> simp [h1]
    rw [if_pos hcond]
  · unfold Handel.sendUpdate
    rw [if_neg (by simp [hs, hf]), hc]
  · unfold Handel.sendUpdate
    rw [if_neg (by simp [hs, hf]), hc]
    rfl

/-- Witness for the amended C8: the panic branch at `hC8` and the skip
branch on a finished level. -/
theorem sendUpdate_spec_witness :
    hC8.sendUpdate lvl2C8 1 = Except.error GoError.combinedNil ∧
    hBase.sendUpdate lvl1F 1 = Except.ok hBase :=
  ⟨(sendUpdate_spec hC8 lvl2C8 1).2.1 (by decide) (by decide) (by decide),
   (sendUpdate_spec hBase lvl1F 1).1 (Or.inr (by decide))⟩

/-- Counterexample to C8 as stated: at `hC8`, level `2` is started and
unfinished while `Combined(1)` is null, and the periodic per-level send
HALTS the aggregator with the `sendUpdate` panic instead of treating null
as "not ready". -/
theorem periodicUpdate_halts_on_nil_combined :
    combined hC8.store (lvl2C8.id - 1) = none ∧
    lvl2C8.started = true ∧ lvl2C8.finished = false ∧
    hC8.levels = [lvl1F, lvl2C8] ∧
    hC8.periodicUpdate = Except.error GoError.combinedNil := by
  decide

/-- Counterexample to C5 as stated: a second `Stop()` call is not benign —
it panics with Go's close-of-closed-channel runtime fault. -/
theorem stop_twice_panics :
    hBase.Stop = Except.ok hC5s ∧
    hC5s.Stop = Except.error GoError.closeClosedChannel := by
  decide

/-- Amended C5: a first `Stop()` on a not-yet-stopped aggregator marks it
done and closes the output channel; afterwards arriving packets are
dropped and `checkFinalSignature` never emits again — but a second
`Stop()` panics on the double channel close, so `Stop` is NOT
idempotent. -/
theorem stop_spec (h h' : Handel) (hc : h.outClosed = false)
    (he : h.Stop = Except.ok h') :
    h'.done = true ∧ h'.outClosed = true ∧
    (∀ p, h'.NewPacket p = h') ∧
    (∀ s h'', h'.checkFinalSignature s = Except.ok h'' →
      h''.out = h'.out) ∧
    h'.Stop = Except.error GoError.closeClosedChannel := by
  have hkey : h.Stop = Except.ok
      { h with tickerStopped := true, procStopped := true, done := true,
               outClosed := true } := by
    unfold Handel.Stop
    rw [if_neg (by simp [hc])]
  rw [hkey] at he
  cases he
  refine ⟨rfl, rfl, fun p => ?_, fun s h'' he'' => ?_, ?_⟩
  · simp [Handel.NewPacket]
  · unfold Handel.checkFinalSignature at he''
    split at he''
    · exact Except.noConfusion he''
    · split at he''
      · cases he''
        rfl
      · split at he''
        · cases he''
          simp [Handel.newBest]
        · split at he''
          · cases he''
            simp [Handel.newBest]
          · cases he''
            rfl
  · unfold Handel.Stop
    rw [if_pos (by simp)]

/-- Witness for the amended C5 at the concrete state `hBase`. -/
theorem stop_spec_witness :
    hC5s.done = true ∧ hC5s.outClosed = true ∧
    hC5s.NewPacket pktOk = hC5s ∧
    hC5s.Stop = Except.error GoError.closeClosedChannel :=
  ⟨(stop_spec hBase hC5s (by decide) (by decide)).1,
   (stop_spec hBase hC5s (by decide) (by decide)).2.1,
   (stop_spec hBase hC5s (by decide) (by decide)).2.2.1 pktOk,
   (stop_spec hBase hC5s (by decide) (by decide)).2.2.2.2⟩

theorem parsePacket_ok (h : Handel) (p : Packet) (ms : MultiSignature)
    (hor : p.origin < (h.n : Int)) (hl1 : 1 ≤ p.level)
    (hl2 : p.level ≤ log2 h.n) (hms : p.multiSig = some ms) :
    h.parsePacket p = Except.ok ms := by
  unfold Handel.parsePacket
  rw [if_neg (by omega), if_neg (by omega), hms]

theorem parsePacket_err (h : Handel) (p : Packet)
    (hrej : (h.n : Int) ≤ p.origin ∨ p.level < 1 ∨ log2 h.n < p.level ∨
      p.multiSig = none) :
    ∃ e, h.parsePacket p = Except.error e := by
  unfold Handel.parsePacket
  by_cases h1 : (h.n : Int) ≤ p.origin
  · exact ⟨_, by rw [if_pos h1]⟩
  · by_cases h2 : p.level < 1 ∨ log2 h.n < p.level
    · exact ⟨_, by rw [if_neg h1, if_pos h2]⟩
    · cases hms : p.multiSig with
      | none => exact ⟨_, by rw [if_neg h1, if_neg h2]⟩
      | some m =>
        rcases hrej with hr | hr | hr | hr
        · exact absurd hr h1
        · exact absurd (Or.inl hr) h2
        · exact absurd (Or.inr hr) h2
        · rw [hms] at hr
          exact Option.noConfusion hr

/-- Amended C2: `NewPacket` drops everything once done; it drops packets
whose origin is ≥ N, whose level is outside `[1, L]`, or whose payload
fails to unmarshal (a NEGATIVE origin is NOT rejected — the source only
checks the upper bound); any other packet is pushed onto the verification
queue. -/
theorem newPacket_spec (h : Handel) (p : Packet) :
    (h.done = true → h.NewPacket p = h) ∧
    (h.done = false →
      ((h.n : Int) ≤ p.origin ∨ p.level < 1 ∨ log2 h.n < p.level ∨
        p.multiSig = none) →
      h.NewPacket p = h) ∧
    (h.done = false → ∀ ms, p.origin < (h.n : Int) → 1 ≤ p.level →
      p.level ≤ log2 h.n → p.multiSig = some ms →
      h.NewPacket p =
        { h with incoming :=
            h.incoming ++ [⟨p.origin, p.level, ms⟩] }) := by
  refine ⟨fun hd => ?_, fun hd hrej => ?_,
    fun hd ms hor hl1 hl2 hms => ?_⟩
  · unfold Handel.NewPacket
    rw [if_pos hd]
  · obtain ⟨e, hee⟩ := parsePacket_err h p hrej
    unfold Handel.NewPacket
    rw [if_neg (by simp [hd]), hee]
  · unfold Handel.NewPacket
    rw [if_neg (by simp [hd]), parsePacket_ok h p ms hor hl1 hl2 hms]

/-- Witness for the amended C2: a well-formed packet is enqueued. -/
theorem newPacket_spec_witness :
    hBase.NewPacket pktOk =
      { hBase with incoming :=
          hBase.incoming ++ [⟨pktOk.origin, pktOk.level, msOW⟩] } :=
  (newPacket_spec hBase pktOk).2.2 (by decide) msOW (by decide) (by decide)
    (by decide) (by decide)

/-- Counterexample to C2 as stated: the packet `pktNeg` has origin `-1`,
which is outside `[0, N)`, yet `NewPacket` does not reject it — the parsed
triple is pushed onto the verification queue. -/
theorem newPacket_negative_origin_enqueued :
    pktNeg.origin < 0 ∧ hBase.done = false ∧
    hBase.NewPacket pktNeg =
      { hBase with incoming := [⟨pktNeg.origin, pktNeg.level, msOW⟩] } := by
  decide

/-- C3 (code bug, acknowledged by the spec's open questions): with every
level above `lvl = 0` empty, `sendBestUpTo` does not fail with the
`"no non-empty level found"` (`NoHigherLevel`) error — the erroneous loop
guard of `findNextLevel` (testing `lvl` instead of `l`) sends the loop past
the end of the levels array, and the failure is the index-out-of-range
runtime panic instead. -/
theorem sendBestUpTo_empty_levels_out_of_range :
    hC3.levels = [lvlE] ∧ lvlE.nodes = [] ∧
    hC3.sendBestUpTo 0 = Except.error GoError.indexOutOfRange ∧
    GoError.indexOutOfRange ≠ GoError.noNonEmptyLevel := by
  decide

/-- C1: one `checkFinalSignature` step preserves the emission invariant
`finalInv`, and either emits nothing or emits exactly one value that meets
the threshold and strictly exceeds the cardinality of every previously
emitted value — so along any run from the initial state (empty history, no
best) every value on `FinalSignatures()` has cardinality ≥ `threshold` and
successive values have strictly increasing cardinality. -/
theorem checkFinalSignature_monotone (h h' : Handel) (s : sigPair)
    (hinv : finalInv h) (he : h.checkFinalSignature s = Except.ok h') :
    finalInv h' ∧
    (h'.out = h.out ∨
      ∃ m, h'.out = h.out ++ [m] ∧ h.threshold ≤ m.Cardinality ∧
        ∀ p ∈ h.out, p.Cardinality < m.Cardinality) := by
  obtain ⟨hpw, hmem, hnone⟩ := hinv
  unfold Handel.checkFinalSignature at he
  split at he
  · exact Except.noConfusion he
  · rename_i sig hsig
    split at he
    · cases he
      exact ⟨⟨hpw, hmem, hnone⟩, Or.inl rfl⟩
    · rename_i hth
      split at he
      · rename_i hbest
        cases he
        unfold Handel.newBest
        split
        · exact ⟨⟨hpw, hmem, hnone⟩, Or.inl rfl⟩
        · have hout : h.out = [] := hnone hbest
          refine ⟨⟨?_, ?_, ?_⟩, ?_⟩
          · show (h.out ++ [sig]).Pairwise
              (fun a b => a.Cardinality < b.Cardinality)
            rw [hout]
            simp
          · show ∀ m ∈ h.out ++ [sig],
              h.threshold ≤ m.Cardinality ∧
                m.Cardinality ≤ sig.Cardinality
            intro m hm
            rw [hout] at hm
            have hmeq : m = sig := by simpa using hm
            subst hmeq
            exact ⟨by omega, le_refl _⟩
          · show some sig = none → h.out ++ [sig] = []
            intro hx
            exact Option.noConfusion hx
          · right
            refine ⟨sig, rfl, by omega, ?_⟩
            intro p hp
            rw [hout] at hp
            exact absurd hp (List.not_mem_nil p)
      · rename_i local0 hbest
        split at he
        · rename_i hlt
          cases he
          unfold Handel.newBest
          split
          · exact ⟨⟨hpw, hmem, hnone⟩, Or.inl rfl⟩
          · have hbc : bestCard h = local0.Cardinality := by
              unfold bestCard
              rw [hbest]
              rfl
            have hall : ∀ p ∈ h.out, p.Cardinality < sig.Cardinality := by
              intro p hp
              have h2 := (hmem p hp).2
              rw [hbc] at h2
              omega
            refine ⟨⟨?_, ?_, ?_⟩, ?_⟩
            · show (h.out ++ [sig]).Pairwise
                (fun a b => a.Cardinality < b.Cardinality)
              rw [List.pairwise_append]
              refine ⟨hpw, List.pairwise_singleton _ _, ?_⟩
              intro a ha b hb
              have hbeq : b = sig := by simpa using hb
              subst hbeq
              exact hall a ha
            · show ∀ m ∈ h.out ++ [sig],
                h.threshold ≤ m.Cardinality ∧
                  m.Cardinality ≤ sig.Cardinality
              intro m hm
              rcases List.mem_append.mp hm with hm1 | hm1
              · exact ⟨(hmem m hm1).1, (hall m hm1).le⟩
              · have hmeq : m = sig := by simpa using hm1
                subst hmeq
                exact ⟨by omega, le_refl _⟩
            · show some sig = none → h.out ++ [sig] = []
              intro hx
              exact Option.noConfusion hx
            · right
              exact ⟨sig, rfl, by omega, hall⟩
        · cases he
          exact ⟨⟨hpw, hmem, hnone⟩, Or.inl rfl⟩

/-- Witness for C1: a fresh state (empty history, no best) satisfies the
invariant, and one step from it emits the full signature. -/
theorem checkFinalSignature_monotone_witness :
    finalInv hC1e ∧
    (hC1e.out = hBase.out ∨
      ∃ m, hC1e.out = hBase.out ++ [m] ∧ hBase.threshold ≤ m.Cardinality ∧
        ∀ p ∈ hBase.out, p.Cardinality < m.Cardinality) :=
  ⟨(checkFinalSignature_monotone hBase hC1e sW (by decide) (by decide)).1,
   (checkFinalSignature_monotone hBase hC1e sW (by decide) (by decide)).2⟩
